import Mathlib

/-!
Verification of the firmware-key resolver `theapplewiki_api.py`.

The development shallow-embeds the program's pure core:
  * a JSON value model `JVal` (numbers as integers) with Python truthiness;
  * Python string primitives (`in`, `split`, `replace`, `startswith`,
    `os.path.basename`, `os.path.join`) as executable functions on
    character lists;
  * the cache store (`cache_path`, `cache_valid`, `load_cache`, `save_cache`)
    over an explicit filesystem state `FS` (the `.cache` directory contents:
    filename, JSON content, mtime, in directory-listing order) and an explicit
    current time;
  * the two HTTP client functions over an oracle `HttpOutcome` standing for
    the network response (transport failure / timeout / non-JSON body are the
    caught-exception branch; a parsed JSON body is the success branch), with
    Python runtime exceptions made explicit in an `Except PyErr` monad;
  * the resolver orchestration `fetch_firmware_keys` with the two network
    results passed as oracle parameters and the output-directory state
    threaded explicitly;
  * the bulk-entry parsing of `main`.
-/

/-- JSON values; numbers are modelled as integers. -/
inductive JVal where
  | null
  | bool (b : Bool)
  | num (n : Int)
  | str (s : String)
  | arr (elems : List JVal)
  | obj (fields : List (String × JVal))

/-- Python truthiness of a JSON value (`if data:` etc.). -/
def jsonTruthy : JVal → Bool
  | .null => false
  | .bool b => b
  | .num n => !(n == 0)
  | .str s => !(s == "")
  | .arr xs => !xs.isEmpty
  | .obj kvs => !kvs.isEmpty

/-- `isinstance(data, dict)`. -/
def jvalIsDict : JVal → Bool
  | .obj _ => true
  | _ => false

/-- Python truthiness of a string-or-None value (`if build:` where
`build` is a CLI parameter: `None` and `""` are falsy). -/
def truthyS : Option String → Bool
  | none => false
  | some s => !(s == "")

/-- Python `str()` of a string-or-None value, as used inside f-strings
(`str(None) = "None"`). -/
def pyShowOpt : Option String → String
  | some s => s
  | none => "None"

/-- Python substring test `needle in hay` on character lists. -/
def pyInL (needle : List Char) : List Char → Bool
  | [] => needle.isEmpty
  | c :: rest => needle.isPrefixOf (c :: rest) || pyInL needle rest

/-- Python substring test `needle in hay` on strings. -/
def pyIn (needle hay : String) : Bool :=
  pyInL needle.data hay.data

/-- Python `s.split(sep)` for a one-character separator, on character
lists: keeps empty fields, `"".split(sep) = [""]`. -/
def pySplitL (sep : Char) : List Char → List (List Char)
  | [] => [[]]
  | c :: rest =>
    let r := pySplitL sep rest
    if c = sep then [] :: r
    else
      match r with
      | [] => [[c]]
      | h :: t => (c :: h) :: t

/-- Python `s.split(sep)` for a one-character separator. -/
def pySplit (s : String) (sep : Char) : List String :=
  (pySplitL sep s.data).map String.mk

/-- Python `s.startswith(pre)`. -/
def pyStartsWith (s pre : String) : Bool :=
  pre.data.isPrefixOf s.data

/-- Python character-slice `s[n:]`. -/
def pyDropChars (s : String) (n : Nat) : String :=
  String.mk (s.data.drop n)

/-- `os.path.basename`: the part after the last `/`. -/
def basename (p : String) : String :=
  (pySplit p '/').getLastD ""

/-- Python `s.replace(pat, rep)` on character lists: replaces every
occurrence of `pat`, left to right, non-overlapping.  (The empty-pattern
case, which Python treats specially, is never exercised by the program:
we leave the text unchanged there.) -/
def replaceL (pat rep : List Char) (s : List Char) : List Char :=
  match s with
  | [] => []
  | c :: rest =>
    if h : pat ≠ [] ∧ pat.isPrefixOf (c :: rest) then
      rep ++ replaceL pat rep ((c :: rest).drop pat.length)
    else
      c :: replaceL pat rep rest
termination_by s.length
decreasing_by
  · have hp : 0 < pat.length := List.length_pos.mpr h.1
    simp only [List.length_drop, List.length_cons]
    omega
  · simp

/-- Python `s.replace(pat, rep)` on strings. -/
def strReplace (s pat rep : String) : String :=
  String.mk (replaceL pat.data rep.data s.data)

/-- `smw_path_escape`: the five chained `str.replace` calls of the source. -/
def smw_path_escape (text : String) : String :=
  strReplace (strReplace (strReplace (strReplace (strReplace text "[" "-5B") "]" "-5D") " " "-20") ":" "-3A") "," "%2C"

-- ------------------------------
-- Cache store
-- ------------------------------

def CACHE_DIR : String := ".cache"

/-- `CACHE_TTL = 7 * 24 * 60 * 60` seconds (7 days). -/
def CACHE_TTL : Int := 7 * 24 * 60 * 60

def POLITE_DELAY : Int := 2

/-- `os.path.join`. -/
def pathJoin (d f : String) : String := d ++ "/" ++ f

/-- A file in the cache directory: its JSON content (cache files are
written by `save_cache`, hence contain valid JSON) and its mtime. -/
structure FileRec where
  content : JVal
  mtime : Int

/-- The state of the `.cache` directory: filename/record pairs in
directory-listing order. -/
structure FS where
  entries : List (String × FileRec)

/-- `os.path.exists` / `os.path.getmtime` / `open(...).read()` combined:
look a full path up in the cache directory. -/
def FS.stat (fs : FS) (path : String) : Option FileRec :=
  (fs.entries.find? (fun e => pathJoin CACHE_DIR e.1 == path)).map (fun e => e.2)

/-- `json.load(open(path))` for a path known to exist. -/
def FS.read (fs : FS) (path : String) : JVal :=
  match fs.stat path with
  | some r => r.content
  | none => JVal.null

/-- `open(path, "w"); json.dump(...)`: overwrite or create the entry for
a filename inside the cache directory, stamping the current time. -/
def FS.write (fs : FS) (fname : String) (content : JVal) (mtime : Int) : FS :=
  if fs.entries.any (fun e => e.1 == fname) then
    ⟨fs.entries.map (fun e => if e.1 == fname then (fname, ⟨content, mtime⟩) else e)⟩
  else
    ⟨fs.entries ++ [(fname, ⟨content, mtime⟩)]⟩

/-- The filename part of `cache_path`: the four f-string branches of the
source, selected by Python truthiness of `build` and `version`. -/
def cache_fname (device : String) (build version : Option String) : String :=
  if truthyS build && truthyS version then
    device ++ "_" ++ build.getD "" ++ "_" ++ version.getD "" ++ ".json"
  else if truthyS build then
    device ++ "_" ++ build.getD "" ++ ".json"
  else if truthyS version then
    device ++ "_" ++ version.getD "" ++ ".json"
  else
    device ++ "_unknown.json"

/-- `cache_path`: `os.path.join(CACHE_DIR, f"...")` on the selected branch. -/
def cache_path (device : String) (build version : Option String) : String :=
  pathJoin CACHE_DIR (cache_fname device build version)

/-- `cache_valid`: the path exists and
`time.time() - os.path.getmtime(path) < CACHE_TTL`. -/
def cache_valid (fs : FS) (now : Int) (path : String) : Bool :=
  match fs.stat path with
  | some r => now - r.mtime < CACHE_TTL
  | none => false

/-- The fallback loop of `load_cache`: scan the directory listing for a
filename containing the device and (a truthy build that substring-matches,
or a truthy version that substring-matches); among those, return the first
valid one. -/
def load_cache_scan (fs : FS) (now : Int) (device : String)
    (build version : Option String) : List (String × FileRec) → Option (JVal × String)
  | [] => none
  | (fname, _) :: rest =>
    if pyIn device fname &&
        ((truthyS build && pyIn (build.getD "") fname) ||
         (truthyS version && pyIn (version.getD "") fname)) then
      let path := pathJoin CACHE_DIR fname
      if cache_valid fs now path then some (fs.read path, path)
      else load_cache_scan fs now device build version rest
    else load_cache_scan fs now device build version rest

/-- `load_cache`: exact-path lookup guarded by `cache_valid`, then the
fallback directory scan; `(None, None)` becomes `none`. -/
def load_cache (fs : FS) (now : Int) (device : String)
    (build version : Option String) : Option (JVal × String) :=
  let exact_path := cache_path device build version
  if cache_valid fs now exact_path then some (fs.read exact_path, exact_path)
  else load_cache_scan fs now device build version fs.entries

/-- `save_cache`: write the (compact-)serialized data at the exact path
for the triple; mtime becomes the current time. -/
def save_cache (fs : FS) (now : Int) (data : JVal) (device : String)
    (build version : Option String) : FS :=
  fs.write (cache_fname device build version) data now

-- ------------------------------
-- HTTP query client
-- ------------------------------

/-- Python runtime exceptions the client code can raise. -/
inductive PyErr where
  | attributeError
  | typeError
  | keyError
  | indexError
deriving DecidableEq

/-- The outcome of `urllib.request.urlopen` + `json.load` as seen by the
`try` block: `failure` is any exception raised there (transport error,
timeout, non-2xx HTTP status, non-JSON body), `success` carries the
parsed JSON body. -/
inductive HttpOutcome where
  | failure
  | success (body : JVal)

/-- Python `data.get(key, dflt)`: only dictionaries have `.get`;
any other value raises `AttributeError`. -/
def pyDictGet (j : JVal) (key : String) (dflt : JVal) : Except PyErr JVal :=
  match j with
  | .obj kvs => .ok (((kvs.find? (fun e => e.1 == key)).map (fun e => e.2)).getD dflt)
  | _ => .error .attributeError

/-- Python `data.items()`: only dictionaries have `.items`. -/
def pyItems : JVal → Except PyErr (List (String × JVal))
  | .obj kvs => .ok kvs
  | _ => .error .attributeError

/-- Python `key in j` for a string `key`: key test on dicts, membership
on lists, substring test on strings, `TypeError` otherwise. -/
def pyContainsStr (key : String) (j : JVal) : Except PyErr Bool :=
  match j with
  | .obj kvs => .ok (kvs.any (fun e => e.1 == key))
  | .arr xs => .ok (xs.any (fun x => match x with | .str t => t == key | _ => false))
  | .str s => .ok (pyIn key s)
  | _ => .error .typeError

/-- Python `j[key]` for a string `key`: lookup on dicts (`KeyError` when
absent), `TypeError` on every other value. -/
def pySubscriptStr (j : JVal) (key : String) : Except PyErr JVal :=
  match j with
  | .obj kvs =>
    match kvs.find? (fun e => e.1 == key) with
    | some e => .ok e.2
    | none => .error .keyError
  | _ => .error .typeError

/-- Python `j[i]` for a natural index: list indexing, one-character
string for strings, `KeyError` on dicts (JSON keys are strings, so an
integer key is never present), `TypeError` otherwise. -/
def pySubscriptNat (j : JVal) (i : Nat) : Except PyErr JVal :=
  match j with
  | .arr xs =>
    match xs.get? i with
    | some v => .ok v
    | none => .error .indexError
  | .str s =>
    match s.data.get? i with
    | some c => .ok (.str (String.mk [c]))
    | none => .error .indexError
  | .obj _ => .error .keyError
  | _ => .error .typeError

/-- The loop body of `discover_update_line` for a page title with the
`Keys:` prefix: derive the update line, the discovered build and version
from the printouts (with the page-title fallback for the build), with
Python exception semantics made explicit. -/
def discoverEntry (page_title : String) (entry : JVal) : Except PyErr (JVal × JVal × JVal) := do
  let stem := pyDropChars page_title 5
  let update_line := (pySplit stem ' ').headD ""
  let printouts ← pyDictGet entry "printouts" (.obj [])
  let hasB ← pyContainsStr "build" printouts
  let condB ← if hasB then do
      let bv ← pySubscriptStr printouts "build"
      pure (jsonTruthy bv)
    else pure false
  let discovered_build ← if condB then do
      let bv ← pySubscriptStr printouts "build"
      pySubscriptNat bv 0
    else pure JVal.null
  let hasV ← pyContainsStr "version" printouts
  let condV ← if hasV then do
      let vv ← pySubscriptStr printouts "version"
      pure (jsonTruthy vv)
    else pure false
  let discovered_version ← if condV then do
      let vv ← pySubscriptStr printouts "version"
      pySubscriptNat vv 0
    else pure JVal.null
  let discovered_build :=
    if !(jsonTruthy discovered_build) then
      let parts := pySplit stem ' '
      if parts.length > 1 then JVal.str (parts.getD 1 "") else discovered_build
    else discovered_build
  pure (JVal.str update_line, discovered_build, discovered_version)

/-- The `for page_title, entry in results.items()` loop: the first title
with the `Keys:` prefix is processed; no match falls through to
`(None, None, None)`. -/
def discoverLoop : List (String × JVal) → Except PyErr (JVal × JVal × JVal)
  | [] => .ok (.null, .null, .null)
  | (page_title, entry) :: rest =>
    if pyStartsWith page_title "Keys:" then discoverEntry page_title entry
    else discoverLoop rest

/-- `discover_update_line` over a network oracle.  Query/URL building is
pure string work with no observable effect and is elided.  The
`except Exception` branch prints a diagnostic and returns
`(None, None, None)`; the code after the `try` block runs with live
exception semantics. -/
def discover_update_line (device : String) (version build : Option String)
    (resp : HttpOutcome) : Except PyErr (JVal × JVal × JVal) :=
  match resp with
  | .failure => .ok (.null, .null, .null)
  | .success data => do
    let results ← pyDictGet data "results" (.obj [])
    if !(jsonTruthy results) then pure (.null, .null, .null)
    else do
      let items ← pyItems results
      discoverLoop items

/-- `fetch_keys` over a network oracle: the `except Exception` branch
returns `None`; otherwise `data if isinstance(data, dict) and data else
None`.  URL building is pure string work and is elided. -/
def fetch_keys (device : String) (build update : Option String)
    (resp : HttpOutcome) : Except PyErr (Option JVal) :=
  match resp with
  | .failure => .ok none
  | .success data =>
    .ok (if jvalIsDict data && jsonTruthy data then some data else none)

-- ------------------------------
-- Resolver
-- ------------------------------

/-- The working directory's output files (name/content), written with
`open(output_file, "w")`: overwrite or append. -/
def writeFile (out : List (String × JVal)) (fname : String) (content : JVal) :
    List (String × JVal) :=
  if out.any (fun e => e.1 == fname) then
    out.map (fun e => if e.1 == fname then (fname, content) else e)
  else
    out ++ [(fname, content)]

/-- The cache-hit build re-derivation of `fetch_firmware_keys`:
`parts = os.path.basename(cache_file).replace(".json", "").split("_")`,
and `parts[1]` when there are at least two parts. -/
def extract_build_from_cache_file (cache_file : String) (final_build : Option String) :
    Option String :=
  let parts := pySplit (strReplace (basename cache_file) ".json" "") '_'
  if parts.length ≥ 2 then some (parts.getD 1 "") else final_build

/-- The cache-miss branch of `fetch_firmware_keys`: discovery result and
key-fetch result are oracle parameters (their values at the client
boundary, string-or-absent as the CLI/wiki produce); the politeness
`time.sleep` has no observable effect in the model. -/
def fetch_firmware_keys_miss (fs : FS) (out : List (String × JVal)) (now : Int)
    (disc : Option String × Option String × Option String) (fetched : Option JVal)
    (device : String) (version build : Option String) :
    (Option JVal × Option String) × FS × List (String × JVal) :=
  let update_line := disc.1
  let discovered_build := disc.2.1
  let discovered_version := disc.2.2
  if !(truthyS update_line) then ((none, none), fs, out)
  else
    let final_build := if truthyS build then build else discovered_build
    let version := if truthyS version then version else discovered_version
    match fetched with
    | none => ((none, none), fs, out)
    | some keys =>
      if !(jsonTruthy keys) then ((none, none), fs, out)
      else
        let fs2 := save_cache fs now keys device final_build version
        let output_file := device ++ "_" ++ pyShowOpt final_build ++ ".json"
        ((some keys, some output_file), fs2, writeFile out output_file keys)

/-- `fetch_firmware_keys`: cache lookup, then either the hit branch
(build re-derived from the matched filename when no build was supplied,
output rewritten) or the miss branch. -/
def fetch_firmware_keys (fs : FS) (out : List (String × JVal)) (now : Int)
    (disc : Option String × Option String × Option String) (fetched : Option JVal)
    (device : String) (version build : Option String) :
    (Option JVal × Option String) × FS × List (String × JVal) :=
  match load_cache fs now device build version with
  | some (cached, cache_file) =>
    if jsonTruthy cached then
      let final_build :=
        if !(truthyS build) then extract_build_from_cache_file cache_file build else build
      let output_file := device ++ "_" ++ pyShowOpt final_build ++ ".json"
      ((some cached, some output_file), fs, writeFile out output_file cached)
    else
      fetch_firmware_keys_miss fs out now disc fetched device version build
  | none => fetch_firmware_keys_miss fs out now disc fetched device version build

-- ------------------------------
-- CLI bulk-entry parsing
-- ------------------------------

/-- The bulk-entry parsing of `main`: `parts = entry.split(",")`,
`product = parts[0]`, `version = parts[1] if len(parts) > 1 and parts[1]
else None`, `build = parts[2] if len(parts) > 2 and parts[2] else None`. -/
def parseBulkEntry (entry : String) : String × Option String × Option String :=
  let parts := pySplit entry ','
  let product := parts.headD ""
  let version := if parts.length > 1 && !(parts.getD 1 "" == "") then some (parts.getD 1 "") else none
  let build := if parts.length > 2 && !(parts.getD 2 "" == "") then some (parts.getD 2 "") else none
  (product, version, build)

/-- The skip test of the bulk loop: `if not version and not build`. -/
def bulkEntrySkipped (entry : String) : Bool :=
  let parsed := parseBulkEntry entry
  !(truthyS parsed.2.1) && !(truthyS parsed.2.2)

-- ------------------------------
-- Helper lemmas: paths and filesystem state
-- ------------------------------

lemma pathJoin_inj {d a b : String} (h : pathJoin d a = pathJoin d b) : a = b := by
  unfold pathJoin at h
  have h2 := congrArg String.data h
  simp only [String.data_append, List.append_assoc, List.append_cancel_left_eq] at h2
  exact String.ext h2

lemma pathJoin_beq (a b : String) :
    (pathJoin CACHE_DIR a == pathJoin CACHE_DIR b) = (a == b) := by
  by_cases h : a = b
  · subst h; simp
  · have hne : pathJoin CACHE_DIR a ≠ pathJoin CACHE_DIR b := fun hc => h (pathJoin_inj hc)
    simp [h, hne]

lemma find_after_replace (f : String) (c : JVal) (t : Int) :
    ∀ l : List (String × FileRec), l.any (fun e => e.1 == f) = true →
      (l.map (fun e => if e.1 == f then (f, (⟨c, t⟩ : FileRec)) else e)).find?
        (fun e => pathJoin CACHE_DIR e.1 == pathJoin CACHE_DIR f) = some (f, ⟨c, t⟩) := by
  intro l
  induction l with
  | nil => intro h; simp at h
  | cons e rest ih =>
    intro hany
    by_cases he : (e.1 == f) = true
    · rw [List.map_cons, if_pos he]
      apply List.find?_cons_of_pos
      simp [pathJoin_beq]
    · rw [List.map_cons, if_neg he]
      have hp : (pathJoin CACHE_DIR e.1 == pathJoin CACHE_DIR f) = false := by
        rw [pathJoin_beq]
        exact Bool.not_eq_true _ ▸ he
      have hrest : rest.any (fun e => e.1 == f) = true := by
        simp only [List.any_cons] at hany
        rcases Bool.or_eq_true_iff.mp hany with h1 | h1
        · exact absurd h1 he
        · exact h1
      rw [List.find?_cons_of_neg _ (by simp [hp])]
      exact ih hrest

lemma find_after_append (f : String) (c : JVal) (t : Int)
    (l : List (String × FileRec)) (h : l.any (fun e => e.1 == f) = false) :
    (l ++ [(f, (⟨c, t⟩ : FileRec))]).find?
      (fun e => pathJoin CACHE_DIR e.1 == pathJoin CACHE_DIR f) = some (f, ⟨c, t⟩) := by
  rw [List.find?_append]
  have h1 : l.find? (fun e => pathJoin CACHE_DIR e.1 == pathJoin CACHE_DIR f) = none := by
    rw [List.find?_eq_none]
    intro x hx
    simp only [pathJoin_beq]
    intro hc
    have h2 : l.any (fun e => e.1 == f) = true := List.any_eq_true.mpr ⟨x, hx, hc⟩
    rw [h] at h2
    exact absurd h2 (by simp)
  rw [h1]
  simp [List.find?_cons_of_pos, pathJoin_beq]

/-- After a write, `stat` at the written filename's path sees exactly the
written record. -/
lemma FS.stat_write (fs : FS) (f : String) (c : JVal) (t : Int) :
    (fs.write f c t).stat (pathJoin CACHE_DIR f) = some ⟨c, t⟩ := by
  unfold FS.write FS.stat
  by_cases hany : fs.entries.any (fun e => e.1 == f) = true
  · rw [if_pos hany]
    simp only [find_after_replace f c t fs.entries hany, Option.map_some']
  · rw [if_neg hany]
    rw [Bool.not_eq_true] at hany
    simp only [find_after_append f c t fs.entries hany, Option.map_some']

/-- `cache_valid` holds exactly when the path exists with a fresh mtime. -/
lemma cache_valid_iff (fs : FS) (now : Int) (path : String) :
    cache_valid fs now path = true ↔
      ∃ r, fs.stat path = some r ∧ now - r.mtime < CACHE_TTL := by
  unfold cache_valid
  cases h : fs.stat path with
  | none => simp
  | some r => simp [h]

/-- Whatever the fallback scan returns was guarded by `cache_valid`. -/
lemma load_cache_scan_valid (fs : FS) (now : Int) (device : String)
    (build version : Option String) (l : List (String × FileRec)) (c : JVal) (p : String) :
    load_cache_scan fs now device build version l = some (c, p) →
      cache_valid fs now p = true ∧ fs.read p = c := by
  induction l with
  | nil => intro h; simp [load_cache_scan] at h
  | cons e rest ih =>
    intro h
    obtain ⟨fname, rec⟩ := e
    rw [load_cache_scan] at h
    by_cases hm : (pyIn device fname &&
        ((truthyS build && pyIn (build.getD "") fname) ||
         (truthyS version && pyIn (version.getD "") fname))) = true
    · rw [hm] at h
      simp only [if_true] at h
      by_cases hv : cache_valid fs now (pathJoin CACHE_DIR fname) = true
      · rw [if_pos hv] at h
        simp only [Option.some.injEq, Prod.mk.injEq] at h
        obtain ⟨h1, h2⟩ := h
        subst h2
        exact ⟨hv, h1⟩
      · rw [if_neg hv] at h
        exact ih h
    · rw [Bool.not_eq_true] at hm
      rw [hm] at h
      simp only [Bool.false_eq_true, if_false] at h
      exact ih h

lemma cache_path_eq_join (device : String) (build version : Option String) :
    cache_path device build version = pathJoin CACHE_DIR (cache_fname device build version) := rfl

/-- After `save_cache`, a `load_cache` with the same triple within the TTL
window hits the exact path and returns the saved content. -/
lemma load_after_write (fs : FS) (now now2 : Int) (data : JVal) (device : String)
    (build version : Option String) (h : now2 - now < CACHE_TTL) :
    load_cache (fs.write (cache_fname device build version) data now) now2 device build version
      = some (data, cache_path device build version) := by
  have hstat := FS.stat_write fs (cache_fname device build version) data now
  have hv : cache_valid (fs.write (cache_fname device build version) data now) now2
      (cache_path device build version) = true := by
    unfold cache_valid
    rw [cache_path_eq_join, hstat]
    simp [h]
  simp only [load_cache]
  rw [if_pos hv]
  unfold FS.read
  rw [cache_path_eq_join, hstat]

lemma str_length_pos {s : String} (h : s ≠ "") : 0 < s.length := by
  cases s with
  | mk data =>
    cases data with
    | nil => exact absurd rfl h
    | cons c cs => simp

lemma truthyS_of_ne {s : String} (h : s ≠ "") : truthyS (some s) = true := by
  simp [truthyS, h]

/-- C3: `cache_valid(path)` is true iff the path exists and its age
`now - mtime` is under `CACHE_TTL` (7 days); consequently `load_cache`
(exact path or fallback scan alike) only ever returns the content of a
file whose age is under 7 days, whatever the content. -/
theorem cache_staleness_barrier :
    (∀ fs now path, cache_valid fs now path = true ↔
        ∃ r, fs.stat path = some r ∧ now - r.mtime < CACHE_TTL) ∧
    (∀ fs now device build version c p,
        load_cache fs now device build version = some (c, p) →
        ∃ r, fs.stat p = some r ∧ now - r.mtime < CACHE_TTL ∧ r.content = c) := by
  constructor
  · exact cache_valid_iff
  · intro fs now device build version c p h
    simp only [load_cache] at h
    by_cases hv : cache_valid fs now (cache_path device build version) = true
    · rw [if_pos hv] at h
      simp only [Option.some.injEq, Prod.mk.injEq] at h
      obtain ⟨h1, h2⟩ := h
      subst h2
      obtain ⟨r, hr, hfresh⟩ := (cache_valid_iff fs now _).mp hv
      refine ⟨r, hr, hfresh, ?_⟩
      unfold FS.read at h1
      rw [hr] at h1
      exact h1
    · rw [if_neg hv] at h
      obtain ⟨hcv, hread⟩ := load_cache_scan_valid fs now device build version fs.entries c p h
      obtain ⟨r, hr, hfresh⟩ := (cache_valid_iff fs now p).mp hcv
      refine ⟨r, hr, hfresh, ?_⟩
      unfold FS.read at hread
      rw [hr] at hread
      exact hread

theorem cache_staleness_barrier_witness :
    load_cache ⟨[("deviceX_buildA_1.0.json", ⟨JVal.str "k", 10⟩)]⟩ 100 "deviceX" none (some "1.0")
        = some (JVal.str "k", ".cache/deviceX_buildA_1.0.json") ∧
    ∃ r, FS.stat ⟨[("deviceX_buildA_1.0.json", ⟨JVal.str "k", 10⟩)]⟩ ".cache/deviceX_buildA_1.0.json"
        = some r ∧ 100 - r.mtime < CACHE_TTL ∧ r.content = JVal.str "k" :=
  ⟨rfl, cache_staleness_barrier.2 ⟨[("deviceX_buildA_1.0.json", ⟨JVal.str "k", 10⟩)]⟩ 100
    "deviceX" none (some "1.0") (JVal.str "k") ".cache/deviceX_buildA_1.0.json" rfl⟩

/-- C4: `save_cache` followed by `load_cache` with the same triple within
the 7-day TTL window returns the saved content (the JSON round-trip is the
identity on the modelled values) together with the exact path for the
triple. -/
theorem save_load_roundtrip :
    ∀ fs now now2 data device build version, now2 - now < CACHE_TTL →
      load_cache (save_cache fs now data device build version) now2 device build version
        = some (data, cache_path device build version) := by
  intro fs now now2 data device build version h
  unfold save_cache
  exact load_after_write fs now now2 data device build version h

theorem save_load_roundtrip_witness :
    ((100 : Int) - 0 < CACHE_TTL) ∧
    load_cache (save_cache ⟨[]⟩ 0 (JVal.str "k") "iPhone9,3" (some "19H370") (some "15.0.1"))
        100 "iPhone9,3" (some "19H370") (some "15.0.1")
      = some (JVal.str "k", cache_path "iPhone9,3" (some "19H370") (some "15.0.1")) :=
  ⟨by decide, save_load_roundtrip ⟨[]⟩ 0 100 (JVal.str "k") "iPhone9,3"
    (some "19H370") (some "15.0.1") (by decide)⟩

/-- C7: `cache_path` is a deterministic pure function following the
priority list (both known, build only, version only, neither), and with
both build and version known (non-empty) the path differs from the
build-only and from the version-only path for the same device. -/
theorem cache_path_priority :
    (∀ device b v, b ≠ "" → v ≠ "" →
        cache_path device (some b) (some v)
          = pathJoin CACHE_DIR (device ++ "_" ++ b ++ "_" ++ v ++ ".json")) ∧
    (∀ device b, b ≠ "" →
        cache_path device (some b) none = pathJoin CACHE_DIR (device ++ "_" ++ b ++ ".json")) ∧
    (∀ device v, v ≠ "" →
        cache_path device none (some v) = pathJoin CACHE_DIR (device ++ "_" ++ v ++ ".json")) ∧
    (∀ device, cache_path device none none = pathJoin CACHE_DIR (device ++ "_unknown.json")) ∧
    (∀ device b v, b ≠ "" → v ≠ "" →
        cache_path device (some b) (some v) ≠ cache_path device (some b) none ∧
        cache_path device (some b) (some v) ≠ cache_path device none (some v)) := by
  have h1 : ∀ device b v, b ≠ "" → v ≠ "" →
      cache_path device (some b) (some v)
        = pathJoin CACHE_DIR (device ++ "_" ++ b ++ "_" ++ v ++ ".json") := by
    intro device b v hb hv
    simp [cache_path, cache_fname, truthyS_of_ne hb, truthyS_of_ne hv]
  have h2 : ∀ device b, b ≠ "" →
      cache_path device (some b) none = pathJoin CACHE_DIR (device ++ "_" ++ b ++ ".json") := by
    intro device b hb
    simp [cache_path, cache_fname, truthyS_of_ne hb, truthyS, hb]
  have h3 : ∀ device v, v ≠ "" →
      cache_path device none (some v) = pathJoin CACHE_DIR (device ++ "_" ++ v ++ ".json") := by
    intro device v hv
    simp [cache_path, cache_fname, truthyS_of_ne hv, truthyS, hv]
  refine ⟨h1, h2, h3, fun device => by simp [cache_path, cache_fname, truthyS], ?_⟩
  intro device b v hb hv
  constructor
  · rw [h1 device b v hb hv, h2 device b hb]
    intro heq
    have hl := congrArg String.length heq
    simp only [pathJoin, String.length_append] at hl
    have hvp := str_length_pos hv
    omega
  · rw [h1 device b v hb hv, h3 device v hv]
    intro heq
    have hl := congrArg String.length heq
    simp only [pathJoin, String.length_append] at hl
    have hbp := str_length_pos hb
    omega

theorem cache_path_priority_witness :
    ("19H370" ≠ "") ∧ ("15.0.1" ≠ "") ∧
    cache_path "iPhone9,3" (some "19H370") (some "15.0.1")
      ≠ cache_path "iPhone9,3" (some "19H370") none ∧
    cache_path "iPhone9,3" (some "19H370") (some "15.0.1")
      ≠ cache_path "iPhone9,3" none (some "15.0.1") :=
  ⟨by decide, by decide,
    (cache_path_priority.2.2.2.2 "iPhone9,3" "19H370" "15.0.1" (by decide) (by decide)).1,
    (cache_path_priority.2.2.2.2 "iPhone9,3" "19H370" "15.0.1" (by decide) (by decide)).2⟩

/-- C9: the filename encoding is not injective across identifier roles:
for every non-empty `s`, the build-only and version-only paths coincide,
`(device, "A_B", None)` and `(device, "A", "B")` collide, and a bundle
saved under a version-only triple is exactly what an exact-match load with
the same string supplied as build reads back. -/
theorem cache_path_role_collision :
    (∀ device s, s ≠ "" → cache_path device (some s) none = cache_path device none (some s)) ∧
    (cache_path "iPhone9,3" (some "A_B") none = cache_path "iPhone9,3" (some "A") (some "B")) ∧
    (∀ fs now now2 data device s, s ≠ "" → now2 - now < CACHE_TTL →
        load_cache (save_cache fs now data device none (some s)) now2 device (some s) none
          = some (data, cache_path device (some s) none)) := by
  have hf : ∀ device s, s ≠ "" →
      cache_fname device none (some s) = cache_fname device (some s) none := by
    intro device s hs
    simp [cache_fname, truthyS_of_ne hs, truthyS]
  refine ⟨?_, by decide, ?_⟩
  · intro device s hs
    rw [cache_path_eq_join, cache_path_eq_join, hf device s hs]
  · intro fs now now2 data device s hs h
    unfold save_cache
    rw [hf device s hs]
    exact load_after_write fs now now2 data device (some s) none h

theorem cache_path_role_collision_witness :
    ("15.0.1" ≠ "") ∧ ((100 : Int) - 0 < CACHE_TTL) ∧
    load_cache (save_cache ⟨[]⟩ 0 (JVal.str "k") "iPhone9,3" none (some "15.0.1"))
        100 "iPhone9,3" (some "15.0.1") none
      = some (JVal.str "k", cache_path "iPhone9,3" (some "15.0.1") none) :=
  ⟨by decide, by decide,
    cache_path_role_collision.2.2 ⟨[]⟩ 0 100 (JVal.str "k") "iPhone9,3" "15.0.1"
      (by decide) (by decide)⟩

lemma truthyS_some_empty : truthyS (some "") = false := rfl

lemma truthyS_none : truthyS none = false := rfl

lemma load_cache_scan_empty_build (fs : FS) (now : Int) (device : String) (v : Option String) :
    ∀ l, load_cache_scan fs now device (some "") v l = load_cache_scan fs now device none v l := by
  intro l
  induction l with
  | nil => rfl
  | cons e rest ih =>
    obtain ⟨fname, rec⟩ := e
    rw [load_cache_scan, load_cache_scan]
    simp only [truthyS_some_empty, truthyS_none, Bool.false_and, Bool.false_or]
    by_cases hm : (pyIn device fname && (truthyS v && pyIn (v.getD "") fname)) = true
    · rw [hm]
      simp only [if_true]
      by_cases hv : cache_valid fs now (pathJoin CACHE_DIR fname) = true
      · rw [if_pos hv, if_pos hv]
      · rw [if_neg hv, if_neg hv, ih]
    · rw [Bool.not_eq_true] at hm
      rw [hm]
      simp only [Bool.false_eq_true, if_false]
      exact ih

lemma load_cache_scan_empty_version (fs : FS) (now : Int) (device : String) (b : Option String) :
    ∀ l, load_cache_scan fs now device b (some "") l = load_cache_scan fs now device b none l := by
  intro l
  induction l with
  | nil => rfl
  | cons e rest ih =>
    obtain ⟨fname, rec⟩ := e
    rw [load_cache_scan, load_cache_scan]
    simp only [truthyS_some_empty, truthyS_none, Bool.false_and, Bool.or_false]
    by_cases hm : (pyIn device fname && (truthyS b && pyIn (b.getD "") fname)) = true
    · rw [hm]
      simp only [if_true]
      by_cases hv : cache_valid fs now (pathJoin CACHE_DIR fname) = true
      · rw [if_pos hv, if_pos hv]
      · rw [if_neg hv, if_neg hv, ih]
    · rw [Bool.not_eq_true] at hm
      rw [hm]
      simp only [Bool.false_eq_true, if_false]
      exact ih

lemma cache_fname_empty_build (device : String) (v : Option String) :
    cache_fname device (some "") v = cache_fname device none v := rfl

lemma cache_fname_empty_version (device : String) (b : Option String) :
    cache_fname device b (some "") = cache_fname device b none := by
  simp [cache_fname, truthyS_some_empty, truthyS_none]

/-- C10: empty-string identifiers are treated as absent throughout the
cache layer: `cache_path` with an empty build (resp. version) equals
`cache_path` with that identifier absent, both empty yields
`{device}_unknown.json`, and `load_cache` behaves identically on an
empty-string identifier and an absent one (so the fallback scan never
matches on an empty build or version). -/
theorem empty_identifier_treated_absent :
    (∀ device v, cache_path device (some "") v = cache_path device none v) ∧
    (∀ device b, cache_path device b (some "") = cache_path device b none) ∧
    (∀ device, cache_path device (some "") (some "")
        = pathJoin CACHE_DIR (device ++ "_unknown.json")) ∧
    (∀ fs now device v, load_cache fs now device (some "") v
        = load_cache fs now device none v) ∧
    (∀ fs now device b, load_cache fs now device b (some "")
        = load_cache fs now device b none) := by
  have hcp1 : ∀ device v, cache_path device (some "") v = cache_path device none v := by
    intro device v
    rw [cache_path_eq_join, cache_path_eq_join, cache_fname_empty_build]
  have hcp2 : ∀ device b, cache_path device b (some "") = cache_path device b none := by
    intro device b
    rw [cache_path_eq_join, cache_path_eq_join, cache_fname_empty_version]
  refine ⟨hcp1, hcp2, fun device => rfl, ?_, ?_⟩
  · intro fs now device v
    simp only [load_cache, hcp1, load_cache_scan_empty_build]
  · intro fs now device b
    simp only [load_cache, hcp2, load_cache_scan_empty_version]

/-- The fallback loop, characterised as a first-match search over the
directory listing. -/
lemma load_cache_scan_eq_find (fs : FS) (now : Int) (device : String)
    (build version : Option String) :
    ∀ l, load_cache_scan fs now device build version l =
      (l.find? (fun e => (pyIn device e.1 &&
          ((truthyS build && pyIn (build.getD "") e.1) ||
           (truthyS version && pyIn (version.getD "") e.1))) &&
          cache_valid fs now (pathJoin CACHE_DIR e.1))).map
        (fun e => (fs.read (pathJoin CACHE_DIR e.1), pathJoin CACHE_DIR e.1)) := by
  intro l
  induction l with
  | nil => rfl
  | cons e rest ih =>
    obtain ⟨fname, rec⟩ := e
    rw [load_cache_scan]
    by_cases hm : (pyIn device fname &&
        ((truthyS build && pyIn (build.getD "") fname) ||
         (truthyS version && pyIn (version.getD "") fname))) = true
    · rw [hm]
      simp only [if_true]
      by_cases hv : cache_valid fs now (pathJoin CACHE_DIR fname) = true
      · rw [if_pos hv, List.find?_cons_of_pos _ (by simp [hm, hv])]
        simp
      · rw [if_neg hv, List.find?_cons_of_neg _ (by simp [hm, hv])]
        exact ih
    · rw [Bool.not_eq_true] at hm
      rw [hm]
      simp only [Bool.false_eq_true, if_false]
      rw [List.find?_cons_of_neg _ (by simp [hm])]
      exact ih

/-- C5: when the exact path is invalid or missing, `load_cache` returns
the first valid file in directory order whose name contains the device
identifier and a (truthy) build or version substring; in particular on a
cache directory holding only the fresh `deviceX_buildA_1.0.json`, the
lookup `(deviceX, build=None, version="1.0")` returns that file's content
and path via the fallback scan. -/
theorem load_cache_fallback_scan :
    (∀ fs now device build version,
        cache_valid fs now (cache_path device build version) = false →
        load_cache fs now device build version =
          (fs.entries.find? (fun e => (pyIn device e.1 &&
              ((truthyS build && pyIn (build.getD "") e.1) ||
               (truthyS version && pyIn (version.getD "") e.1))) &&
              cache_valid fs now (pathJoin CACHE_DIR e.1))).map
            (fun e => (fs.read (pathJoin CACHE_DIR e.1), pathJoin CACHE_DIR e.1))) ∧
    load_cache ⟨[("deviceX_buildA_1.0.json", ⟨JVal.str "content", 10⟩)]⟩ 100
        "deviceX" none (some "1.0")
      = some (JVal.str "content", ".cache/deviceX_buildA_1.0.json") := by
  constructor
  · intro fs now device build version hv
    simp only [load_cache]
    rw [if_neg (by simp [hv]), load_cache_scan_eq_find]
  · rfl

theorem load_cache_fallback_scan_witness :
    cache_valid ⟨[("deviceX_buildA_1.0.json", ⟨JVal.str "content", 10⟩)]⟩ 100
        (cache_path "deviceX" none (some "1.0")) = false ∧
    load_cache ⟨[("deviceX_buildA_1.0.json", ⟨JVal.str "content", 10⟩)]⟩ 100
        "deviceX" none (some "1.0")
      = some (JVal.str "content", ".cache/deviceX_buildA_1.0.json") :=
  ⟨rfl, (load_cache_fallback_scan.1 ⟨[("deviceX_buildA_1.0.json", ⟨JVal.str "content", 10⟩)]⟩
      100 "deviceX" none (some "1.0") rfl).trans rfl⟩

-- ------------------------------
-- The escaping contract (spec-side characterisation)
-- ------------------------------

/-- Spec-side per-character description of the escaping: each of the five
reserved characters maps to its fixed token, everything else is untouched. -/
def escCharSpec (c : Char) : List Char :=
  if c = '[' then "-5B".data
  else if c = ']' then "-5D".data
  else if c = ' ' then "-20".data
  else if c = ':' then "-3A".data
  else if c = ',' then "%2C".data
  else [c]

/-- The five substitutions of `smw_path_escape`, in source order. -/
def substsList : List (Char × List Char) :=
  [('[', "-5B".data), (']', "-5D".data), (' ', "-20".data),
   (':', "-3A".data), (',', "%2C".data)]

/-- Apply a list of single-character substitutions in order. -/
def applySubstsL (subs : List (Char × List Char)) (s : List Char) : List Char :=
  subs.foldl (fun acc pr => replaceL [pr.1] pr.2 acc) s

/-- The per-character effect of a list of substitutions: the first one
whose pattern matches wins, otherwise the character is untouched. -/
def escWith (subs : List (Char × List Char)) (c : Char) : List Char :=
  match subs.find? (fun pr => pr.1 == c) with
  | some pr => pr.2
  | none => [c]

lemma replaceL_single (p : Char) (rep : List Char) :
    ∀ s, replaceL [p] rep s = s.flatMap (fun c => if c = p then rep else [c]) := by
  intro s
  induction s with
  | nil => simp [replaceL]
  | cons c rest ih =>
    rw [replaceL]
    by_cases h : c = p
    · subst h
      simp [List.isPrefixOf_cons₂, ih]
    · have hp : ([p].isPrefixOf (c :: rest)) = false := by
        simp [List.isPrefixOf_cons₂]
        exact fun he => absurd he.symm h
      simp [hp, h, ih]

lemma flatMap_eq_self_of_singletons {f : Char → List Char} :
    ∀ l : List Char, (∀ d ∈ l, f d = [d]) → l.flatMap f = l := by
  intro l
  induction l with
  | nil => intro _; rfl
  | cons d rest ih =>
    intro h
    rw [List.flatMap_cons, h d (List.mem_cons_self d rest), ih (fun x hx => h x (List.mem_cons_of_mem d hx))]
    rfl

/-- No character of any replacement token is itself a reserved character. -/
lemma substs_tokens_avoid_keys :
    ∀ pr ∈ substsList, ∀ d ∈ pr.2, ∀ qr ∈ substsList, (qr.1 == d) = false := by
  decide

lemma applySubstsL_eq_flatMap :
    ∀ subs : List (Char × List Char), (∀ pr ∈ subs, pr ∈ substsList) →
      ∀ s, applySubstsL subs s = s.flatMap (escWith subs) := by
  intro subs
  induction subs with
  | nil =>
    intro _ s
    have h : escWith [] = fun c => [c] := by funext c; rfl
    simp [applySubstsL, h]
  | cons pr rest ih =>
    intro hsub s
    obtain ⟨p, r⟩ := pr
    have hrest : ∀ x ∈ rest, x ∈ substsList := fun x hx => hsub x (List.mem_cons_of_mem _ hx)
    have hhead : (p, r) ∈ substsList := hsub (p, r) (List.mem_cons_self _ _)
    calc applySubstsL ((p, r) :: rest) s
        = applySubstsL rest (replaceL [p] r s) := by
          simp [applySubstsL, List.foldl_cons]
      _ = (replaceL [p] r s).flatMap (escWith rest) := ih hrest _
      _ = (s.flatMap (fun c => if c = p then r else [c])).flatMap (escWith rest) := by
          rw [replaceL_single]
      _ = s.flatMap (fun c => (if c = p then r else [c]).flatMap (escWith rest)) := by
          rw [List.flatMap_assoc]
      _ = s.flatMap (escWith ((p, r) :: rest)) := by
          congr 1
          funext c
          by_cases hc : c = p
          · subst hc
            rw [if_pos rfl]
            have hids : ∀ d ∈ r, escWith rest d = [d] := by
              intro d hd
              unfold escWith
              have hnone : rest.find? (fun x => x.1 == d) = none := by
                rw [List.find?_eq_none]
                intro x hx
                have := substs_tokens_avoid_keys (c, r) hhead d hd x (hrest x hx)
                simp [this]
              rw [hnone]
            rw [flatMap_eq_self_of_singletons r hids]
            unfold escWith
            rw [List.find?_cons_of_pos _ (by simp)]
          · simp only [if_neg hc, List.flatMap_singleton]
            unfold escWith
            rw [List.find?_cons_of_neg _ (by simp; exact fun he => absurd he.symm hc)]

lemma key_pair_unique :
    ∀ pr ∈ substsList, ∀ qr ∈ substsList, pr.1 = qr.1 → pr = qr := by
  decide

lemma escWith_perm (subs : List (Char × List Char)) (hperm : subs.Perm substsList) :
    ∀ c, escWith subs c = escCharSpec c := by
  intro c
  have hmem : ∀ pr : Char × List Char, pr ∈ subs ↔ pr ∈ substsList :=
    fun pr => hperm.mem_iff
  unfold escWith
  cases hf : subs.find? (fun pr => pr.1 == c) with
  | none =>
    have hnone := List.find?_eq_none.mp hf
    have hkey : ∀ pr ∈ substsList, pr.1 ≠ c := by
      intro pr hpr he
      exact hnone pr ((hmem pr).mpr hpr) (by simp [he])
    have h1 : ¬ c = '[' := fun h => hkey ('[', "-5B".data) (by decide) (by simp [h])
    have h2 : ¬ c = ']' := fun h => hkey (']', "-5D".data) (by decide) (by simp [h])
    have h3 : ¬ c = ' ' := fun h => hkey (' ', "-20".data) (by decide) (by simp [h])
    have h4 : ¬ c = ':' := fun h => hkey (':', "-3A".data) (by decide) (by simp [h])
    have h5 : ¬ c = ',' := fun h => hkey (',', "%2C".data) (by decide) (by simp [h])
    simp [escCharSpec, h1, h2, h3, h4, h5]
  | some pr =>
    have hp := List.find?_some hf
    have hpc : pr.1 = c := by simpa using hp
    have hmem2 : pr ∈ substsList := (hmem pr).mp (List.mem_of_find?_eq_some hf)
    subst hpc
    fin_cases hmem2 <;> simp [escCharSpec]

lemma smw_path_escape_data :
    ∀ s : String, (smw_path_escape s).data = s.data.flatMap escCharSpec := by
  intro s
  have h1 : (smw_path_escape s).data = applySubstsL substsList s.data := rfl
  rw [h1, applySubstsL_eq_flatMap substsList (fun pr h => h) s.data]
  congr 1
  funext c
  exact escWith_perm substsList (List.Perm.refl _) c

/-- C6: `smw_path_escape` is pure and replaces every occurrence of the
five reserved characters `[ ] space : ,` by their fixed tokens, leaving
every other character unchanged (a per-character map); applying the five
substitutions in any order yields the same result; and the concrete
example `"Keys: [Test], Value"` escapes as expected. -/
theorem smw_path_escape_spec :
    (∀ s : String, (smw_path_escape s).data = s.data.flatMap escCharSpec) ∧
    (∀ (subs : List (Char × List Char)) (s : List Char), subs.Perm substsList →
        applySubstsL subs s = s.flatMap escCharSpec) ∧
    smw_path_escape "Keys: [Test], Value" = "Keys-3A-20-5BTest-5D%2C-20Value" := by
  refine ⟨smw_path_escape_data, ?_, ?_⟩
  · intro subs s hperm
    rw [applySubstsL_eq_flatMap subs (fun pr h => hperm.mem_iff.mp h) s]
    congr 1
    funext c
    exact escWith_perm subs hperm c
  · apply String.ext
    rw [smw_path_escape_data]
    decide

theorem smw_path_escape_spec_witness :
    (substsList.reverse.Perm substsList) ∧
    applySubstsL substsList.reverse ("Keys: [Test], Value".data)
      = ("Keys: [Test], Value".data).flatMap escCharSpec :=
  ⟨substsList.reverse_perm,
    smw_path_escape_spec.2.1 substsList.reverse ("Keys: [Test], Value".data)
      substsList.reverse_perm⟩

-- ------------------------------
-- Claim theorems: CLI, HTTP client, resolver
-- ------------------------------

/-- C1 (code bug): the bulk entry `"iPhone9,3,,19H370"` is NOT parsed as
device `iPhone9,3` with build `19H370`: the naive comma split also splits
the device identifier's internal comma, so `main` parses product
`"iPhone9"`, version `"3"`, no build — the entry is not skipped, but the
attempted resolution targets the wrong device with a version and no
build. -/
theorem bulk_entry_comma_split_bug :
    parseBulkEntry "iPhone9,3,,19H370" = ("iPhone9", some "3", none) ∧
    parseBulkEntry "iPhone9,3,,19H370" ≠ ("iPhone9,3", none, some "19H370") ∧
    bulkEntrySkipped "iPhone9,3,,19H370" = false := by
  decide

/-- C2 (counterexample): a well-formed JSON response body of unexpected
top-level shape — here the JSON array `[]` — makes `discover_update_line`
raise an `AttributeError` (at `data.get("results", {})`, which sits after
the `try` block) past the client boundary instead of degrading to an
absent result. -/
theorem discover_raises_on_unexpected_shape :
    discover_update_line "iPhone9,3" none none (.success (JVal.arr []))
      = .error .attributeError := rfl

/-- C2 (amended): network errors, timeouts and non-JSON bodies (the
caught-exception path) are downgraded to an absent result by both client
calls, and the key-fetch client never raises for any response body; but
the discovery client's no-raise guarantee does not extend to well-formed
JSON of unexpected shape. -/
theorem http_client_downgrades_failures :
    (∀ device version build,
        discover_update_line device version build .failure = .ok (.null, .null, .null)) ∧
    (∀ device build update, fetch_keys device build update .failure = .ok none) ∧
    (∀ device build update resp, ∃ r, fetch_keys device build update resp = .ok r) := by
  refine ⟨fun _ _ _ => rfl, fun _ _ _ => rfl, fun device build update resp => ?_⟩
  cases resp with
  | failure => exact ⟨none, rfl⟩
  | success data => exact ⟨_, rfl⟩

/-- C8: on a cache miss, if discovery yields no (truthy) update line, or
the key fetch yields an absent or empty result, `fetch_firmware_keys`
returns `(None, None)` and leaves both the cache directory and the
working directory untouched. -/
theorem failed_resolution_leaves_state_unchanged :
    ∀ fs out now disc fetched device version build,
      load_cache fs now device build version = none →
      (truthyS disc.1 = false ∨ fetched = none ∨
        ∃ k, fetched = some k ∧ jsonTruthy k = false) →
      fetch_firmware_keys fs out now disc fetched device version build
        = ((none, none), fs, out) := by
  intro fs out now disc fetched device version build hmiss hfail
  unfold fetch_firmware_keys
  rw [hmiss]
  unfold fetch_firmware_keys_miss
  rcases hfail with h1 | h2 | ⟨k, hk, hkf⟩
  · simp [h1]
  · by_cases hu : truthyS disc.1 <;> simp [hu, h2]
  · by_cases hu : truthyS disc.1 <;> simp [hu, hk, hkf]

theorem failed_resolution_leaves_state_unchanged_witness :
    load_cache ⟨[]⟩ 0 "iPhone9,3" (some "19H370") none = none ∧
    truthyS ((none, none, none) : Option String × Option String × Option String).1 = false ∧
    fetch_firmware_keys ⟨[]⟩ [] 0 (none, none, none) none "iPhone9,3" none (some "19H370")
      = ((none, none), ⟨[]⟩, []) :=
  ⟨rfl, rfl,
    failed_resolution_leaves_state_unchanged ⟨[]⟩ [] 0 (none, none, none) none
      "iPhone9,3" none (some "19H370") rfl (Or.inl rfl)⟩
